import Mathlib

/-! gha-slack-bot: command interpretation and workflow dispatch

A shallow embedding of `src/main.go` (the slash-command dispatcher, the workflow
listing, the workflow trigger and the two string helpers) together with the
properties of the program that its specification states.

Modelling conventions.

* A Go `string` is modelled by a Lean `String`.  Every separator the program
  splits on (`"/"`, `"."`, `" "`) is a single ASCII byte, so splitting the byte
  sequence and splitting the character sequence agree on UTF-8 text.
* A Go run-time panic (index out of range, slice bounds out of range, nil
  pointer dereference) is an explicit `Except.error` carrying a `Panic`.
* A Go `error` value is modelled by its message (`err.Error()`), `none` being
  the nil error.
* The CI provider (the `go-github` client) and the certificate pool are
  collaborators: they are a parameter `Provider` of the model, and the calls made
  to the provider are recorded in an explicit trace.
* Logging (`slog`) has no effect on results and is left out.
-/

namespace GhaSlackBot

set_option linter.dupNamespace false

/-! ## Go run-time panics -/

/-- Run-time panics the modelled code can raise. -/
inductive Panic where
  /-- `s[i]` with `i ≥ len(s)`: "index out of range [i] with length len". -/
  | indexOutOfRange (index len : Nat)
  /-- `s[lo:]` with `lo > len(s)`: "slice bounds out of range [lo:len]". -/
  | sliceBoundsOutOfRange (lo len : Nat)
  /-- Field access through a nil pointer: "invalid memory address or nil pointer dereference". -/
  | nilPointerDereference
  deriving DecidableEq, Repr

deriving instance DecidableEq for Except

/-- Go slice indexing `xs[i]`, which panics when `i` is out of range. -/
def index {α : Type} (xs : List α) (i : Nat) : Except Panic α :=
  match xs[i]? with
  | some x => .ok x
  | none => .error (.indexOutOfRange i xs.length)

/-- Go re-slicing `xs[lo:]`, which panics when `lo > len(xs)`. -/
def sliceFrom {α : Type} (xs : List α) (lo : Nat) : Except Panic (List α) :=
  if lo ≤ xs.length then .ok (xs.drop lo) else .error (.sliceBoundsOutOfRange lo xs.length)

/-! ## The `strings` package, for a one-byte separator -/

/-- Go `strings.Count(s, sep)` for a one-byte `sep`: the number of occurrences of `sep` in `s`. -/
def countChars (sep : Char) : List Char → Nat
  | [] => 0
  | c :: cs => (if c = sep then 1 else 0) + countChars sep cs

/-- Go `strings.Index(s, sep)` for a one-byte `sep`: position of the first occurrence,
`none` standing for the result `-1`. -/
def indexChars (sep : Char) : List Char → Option Nat
  | [] => none
  | c :: cs => if c = sep then some 0 else (indexChars sep cs).map (· + 1)

/-- The loop of Go `strings.genSplit`: at most `n` times, cut `s` at the first
separator (`a[i] = s[:m]; s = s[m+len(sep):]`), stopping early when no separator is
left (`m < 0`); the remainder is the final element (`a[i] = s`). -/
def genSplitLoop (sep : Char) : Nat → List Char → List (List Char)
  | 0, s => [s]
  | n + 1, s =>
    match indexChars sep s with
    | none => [s]
    | some m => s.take m :: genSplitLoop sep n (s.drop (m + 1))

/-- Go `strings.genSplit(s, sep, 0, -1)` for a one-byte `sep`: the loop runs
`n - 1` times with `n = Count(s, sep) + 1`. -/
def genSplit (sep : Char) (s : List Char) : List (List Char) :=
  genSplitLoop sep (countChars sep s + 1 - 1) s

/-- Go `strings.Count(s, sep)` for a one-byte separator. -/
def Count (s : String) (sep : Char) : Nat :=
  countChars sep s.data

/-- Go `strings.Split(s, sep)` for a one-byte separator. -/
def Split (s : String) (sep : Char) : List String :=
  (genSplit sep s.data).map String.mk

/-! ## The program's string helpers -/

/-- Go `parseWorkflowFilenameFromPath` (src/main.go, lines 232-236). -/
def parseWorkflowFilenameFromPath (path : String) : Except Panic String := do
  let numberOfSlashes := Count path '/'
  let segment ← index (Split path '/') numberOfSlashes
  index (Split segment '.') 0

/-- Go `tokenizeSlackCommand` (src/main.go, lines 238-241). -/
def tokenizeSlackCommand (text : String) : Except Panic (String × List String) := do
  let tokens := Split text ' '
  let first ← index tokens 0
  let rest ← sliceFrom tokens 1
  return (first, rest)

/-! ## Data model -/

/-- Go `SlackCommand` (src/main.go, lines 18-22). -/
structure SlackCommand where
  Command : String
  Text : String
  TokenizedText : List String
  deriving DecidableEq, Repr

/-- The fields of go-github's `Workflow` that the program reads; both are pointers
(`*string`) and may be nil. -/
structure Workflow where
  Name : Option String
  Path : Option String
  deriving DecidableEq, Repr

/-- The go-github getter `(*Workflow).GetName`: the empty string for a nil receiver or a nil field. -/
def GetName : Option Workflow → String
  | some w => w.Name.getD ""
  | none => ""

/-- The go-github getter `(*Workflow).GetPath`: the empty string for a nil receiver or a nil field. -/
def GetPath : Option Workflow → String
  | some w => w.Path.getD ""
  | none => ""

/-- The field of go-github's `Workflows` that the program reads: `Workflows []*Workflow`. -/
structure Workflows where
  Workflows : List (Option Workflow)
  deriving DecidableEq, Repr

/-- Process-wide configuration read from the environment (src/main.go, lines 24-30). -/
structure Config where
  githubToken : String
  repoOwner : String
  repoName : String
  deriving DecidableEq, Repr

/-- A remote call made to the CI provider. -/
inductive Call where
  /-- The call `client.Actions.ListWorkflows(ctx, owner, repo, nil)`. -/
  | listWorkflows (owner repo : String)
  /-- The call `client.Actions.CreateWorkflowDispatchEventByFileName(ctx, owner, repo, fileName, event)`
  with `event.Ref = ref`. -/
  | dispatch (owner repo fileName ref : String)
  deriving DecidableEq, Repr

/-- Whether a provider call is a dispatch call. -/
def Call.isDispatch : Call → Bool
  | .dispatch _ _ _ _ => true
  | .listWorkflows _ _ => false

/-- The collaborators of the program, as seen during one request.
`ListWorkflows` returns Go's pair of a `*Workflows` pointer (possibly nil) and an error. -/
structure Provider where
  /-- The error of `x509.SystemCertPool()`, `none` when the pool is loaded. -/
  systemCertPool : Option String
  /-- The answer to `ListWorkflows(ctx, owner, repo, nil)`. -/
  ListWorkflows : String → String → Option Workflows × Option String
  /-- The error of `CreateWorkflowDispatchEventByFileName(ctx, owner, repo, fileName, event)`
  for `event.Ref = ref`, `none` on success. -/
  CreateWorkflowDispatchEventByFileName : String → String → String → String → Option String

/-- The result of running effectful code: the provider calls made, in order, and
either the returned value or the panic that ended the run. -/
structure Run (α : Type) where
  calls : List Call
  result : Except Panic α

/-- The number of dispatch calls in a trace. -/
def dispatchCount (calls : List Call) : Nat :=
  calls.countP Call.isDispatch

/-! ## Workflow trigger and workflow listing -/

/-- Go `createGitHubClient` (src/main.go, lines 142-162): fails exactly when the system
certificate pool cannot be loaded. -/
def createGitHubClient (p : Provider) (_token : String) : Option String :=
  p.systemCertPool

/-- The existence loop of `triggerWorkflow` (src/main.go, lines 179-185): scan the
listing in order and stop at the first workflow whose derived file name equals
the requested one. -/
def workflowExistsLoop (workflowFileName : String) : List (Option Workflow) → Except Panic Bool
  | [] => .ok false
  | workflow :: rest =>
    match parseWorkflowFilenameFromPath (GetPath workflow) with
    | .error e => .error e
    | .ok name => if workflowFileName = name then .ok true else workflowExistsLoop workflowFileName rest

/-- Go `triggerWorkflow` (src/main.go, lines 164-208).  The returned value is the Go
`error` (`none` for nil). -/
def triggerWorkflow (p : Provider) (token repoOwner repoName : String) (command : SlackCommand) :
    Run (Option String) :=
  match createGitHubClient p token with
  | some err => ⟨[], .ok (some err)⟩
  | none =>
    match index command.TokenizedText 0 with
    | .error e => ⟨[], .error e⟩
    | .ok workflowFileName =>
      let listed := [Call.listWorkflows repoOwner repoName]
      match p.ListWorkflows repoOwner repoName with
      | (_, some err2) => ⟨listed, .ok (some err2)⟩
      | (none, none) => ⟨listed, .error .nilPointerDereference⟩
      | (some workflows, none) =>
        match workflowExistsLoop workflowFileName workflows.Workflows with
        | .error e => ⟨listed, .error e⟩
        | .ok false => ⟨listed, .ok (some "workflow not found")⟩
        | .ok true =>
          ⟨listed ++ [Call.dispatch repoOwner repoName (workflowFileName ++ ".yml") "main"],
            .ok (p.CreateWorkflowDispatchEventByFileName repoOwner repoName
              (workflowFileName ++ ".yml") "main")⟩

/-- The rendering loop of `listWorkflows` (src/main.go, lines 224-227), started from
the accumulator `list`. -/
def listLoop (list : String) : List (Option Workflow) → Except Panic String
  | [] => .ok list
  | workflow :: rest =>
    match parseWorkflowFilenameFromPath (GetPath workflow) with
    | .error e => .error e
    | .ok name => listLoop (list ++ (GetName workflow ++ "(" ++ name ++ "), ")) rest

/-- Go `listWorkflows` (src/main.go, lines 210-230).  The returned value is Go's pair
of the rendered list and the `error`.  A failed listing is only logged (lines
220-222); execution continues into the loop over `workflows.Workflows`. -/
def listWorkflows (p : Provider) (token owner repo : String) : Run (String × Option String) :=
  match createGitHubClient p token with
  | some err => ⟨[], .ok ("", some err)⟩
  | none =>
    let listed := [Call.listWorkflows owner repo]
    match (p.ListWorkflows owner repo).1 with
    | none => ⟨listed, .error .nilPointerDereference⟩
    | some workflows =>
      match listLoop "" workflows.Workflows with
      | .error e => ⟨listed, .error e⟩
      | .ok list => ⟨listed, .ok (list, none)⟩

/-! ## Command dispatcher -/

/-- What `triggerHandler` hands back to the web framework. -/
inductive Response where
  /-- The call `c.JSON(http.StatusOK, params)`: the message text and its response type. -/
  | json (status : Nat) (text responseType : String)
  /-- The value `echo.NewHTTPError(code, message)`. -/
  | httpError (code : Nat) (message : String)
  deriving DecidableEq, Repr

/-- The response text of a JSON response, `none` for an HTTP error. -/
def Response.text : Response → Option String
  | .json _ text _ => some text
  | .httpError _ _ => none

/-- Go `triggerHandler` (src/main.go, lines 84-140).  `parsed` is the result of
`slack.SlashCommandParse(request)`: the text of the slash command, or the parse error. -/
def triggerHandler (p : Provider) (cfg : Config) (parsed : Except String String) : Run Response :=
  match parsed with
  | .error _ => ⟨[], .ok (.httpError 500 "Please provide valid request")⟩
  | .ok text =>
    match tokenizeSlackCommand text with
    | .error e => ⟨[], .error e⟩
    | .ok (command, tokens) =>
      let slackCommand : SlackCommand := { Command := command, Text := text, TokenizedText := tokens }
      if slackCommand.Command = "help" then
        ⟨[], .ok (.json 200 "Help Command..." "ephemeral")⟩
      else if slackCommand.Command = "trigger" then
        let run := triggerWorkflow p cfg.githubToken cfg.repoOwner cfg.repoName slackCommand
        match run.result with
        | .error e => ⟨run.calls, .error e⟩
        | .ok (some err) => ⟨run.calls, .ok (.json 200 err "ephemeral")⟩
        | .ok none => ⟨run.calls, .ok (.json 200 "Workflow Triggered Successfully" "ephemeral")⟩
      else if slackCommand.Command = "list" then
        let run := listWorkflows p cfg.githubToken cfg.repoOwner cfg.repoName
        match run.result with
        | .error e => ⟨run.calls, .error e⟩
        | .ok (_, some err) => ⟨run.calls, .ok (.json 200 err "ephemeral")⟩
        | .ok (list, none) => ⟨run.calls, .ok (.json 200 list "ephemeral")⟩
      else
        ⟨[], .ok (.json 200 "Invalid Command..." "ephemeral")⟩

/-- A provider for examples: the pool loads, the listing is `ws` and dispatch succeeds. -/
def okProvider (ws : List (Option Workflow)) : Provider where
  systemCertPool := none
  ListWorkflows := fun _ _ => (some ⟨ws⟩, none)
  CreateWorkflowDispatchEventByFileName := fun _ _ _ _ => none

/-- A provider for examples: the pool loads and the listing call fails with `e`. -/
def failingListProvider (e : String) : Provider where
  systemCertPool := none
  ListWorkflows := fun _ _ => (none, some e)
  CreateWorkflowDispatchEventByFileName := fun _ _ _ _ => none

/-- A configuration for examples. -/
def exampleConfig : Config := ⟨"token", "owner", "repo"⟩

/-- A workflow with the given name and path. -/
def mkWorkflow (name path : String) : Option Workflow := some ⟨some name, some path⟩

/-! ## Reference definitions, following the words of the specification -/

/-- The specification's "split on a delimiter": the pieces of `s` between
consecutive occurrences of `sep`, empty pieces included. -/
def splitSpec (s : String) (sep : Char) : List String :=
  (s.data.splitOn sep).map String.mk

/-- The specification's shortId rule: "take the path, split on `/`, take the last
segment, split on `.`, take the first segment". -/
def shortIdSpec (path : String) : Option String :=
  (splitSpec path '/').getLast?.bind fun segment => (splitSpec segment '.').head?

/-- The specification's "whitespace-delimited tokens" of a text: the maximal runs
of non-whitespace characters. -/
def whitespaceTokens (text : String) : List String :=
  ((text.data.splitOnP Char.isWhitespace).filter fun t => !t.isEmpty).map String.mk

/-! ## Lemmas on splitting -/

theorem genSplit_nil (sep : Char) : genSplit sep [] = [[]] := rfl

theorem genSplit_cons (sep c : Char) (cs : List Char) :
    genSplit sep (c :: cs) =
      if c = sep then [] :: genSplit sep cs else (genSplit sep cs).modifyHead (List.cons c) := by
  unfold genSplit
  by_cases h : c = sep
  · subst h
    simp [countChars, indexChars, genSplitLoop, Nat.add_comm 1]
  · simp only [countChars, if_neg h, Nat.zero_add, Nat.add_sub_cancel]
    cases hk : countChars sep cs with
    | zero => simp [genSplitLoop]
    | succ k =>
      cases hi : indexChars sep cs with
      | none => simp [genSplitLoop, indexChars, h, hi]
      | some m => simp [genSplitLoop, indexChars, h, hi]

theorem genSplit_eq_splitOn (sep : Char) (s : List Char) : genSplit sep s = s.splitOn sep := by
  induction s with
  | nil => rfl
  | cons c cs ih =>
    rw [genSplit_cons, List.splitOn, List.splitOnP_cons, ← List.splitOn, ← ih]
    by_cases h : c = sep <;> simp [h]

theorem genSplit_ne_nil (sep : Char) (s : List Char) : genSplit sep s ≠ [] := by
  rw [genSplit_eq_splitOn]
  exact List.splitOnP_ne_nil _ _

theorem length_modifyHead_cons (c : Char) (xs : List (List Char)) :
    (xs.modifyHead (List.cons c)).length = xs.length := by
  cases xs <;> simp

theorem genSplit_length (sep : Char) (s : List Char) :
    (genSplit sep s).length = countChars sep s + 1 := by
  induction s with
  | nil => rfl
  | cons c cs ih =>
    rw [genSplit_cons]
    by_cases h : c = sep
    · simp [h, countChars, ih]; omega
    · simp [h, countChars, ih, length_modifyHead_cons]

theorem not_mem_of_mem_genSplit (sep : Char) (s t : List Char) (ht : t ∈ genSplit sep s) :
    sep ∉ t := by
  induction s generalizing t with
  | nil =>
    simp [genSplit_nil] at ht
    simp [ht]
  | cons c cs ih =>
    rw [genSplit_cons] at ht
    by_cases h : c = sep
    · simp only [h, if_true, List.mem_cons] at ht
      rcases ht with rfl | ht
      · simp
      · exact ih t ht
    · simp only [h, if_false] at ht
      cases hs : genSplit sep cs with
      | nil => exact absurd hs (genSplit_ne_nil sep cs)
      | cons u us =>
        rw [hs] at ht ih
        simp only [List.modifyHead_cons, List.mem_cons] at ht
        rcases ht with rfl | ht
        · have hu := ih u (by simp)
          simp only [List.mem_cons, not_or]
          exact ⟨fun e => h e.symm, hu⟩
        · exact ih t (by simp [ht])

theorem intercalate_genSplit (sep : Char) (s : List Char) :
    [sep].intercalate (genSplit sep s) = s := by
  rw [genSplit_eq_splitOn]
  exact List.intercalate_splitOn s sep

theorem genSplit_unique (sep : Char) (s : List Char) (ls : List (List Char)) (hne : ls ≠ [])
    (hfree : ∀ l ∈ ls, sep ∉ l) (hjoin : [sep].intercalate ls = s) : genSplit sep s = ls := by
  rw [genSplit_eq_splitOn, ← hjoin]
  exact List.splitOn_intercalate ls sep hfree hne

theorem genSplit_of_not_mem (sep : Char) (s : List Char) (h : sep ∉ s) : genSplit sep s = [s] :=
  genSplit_unique sep s [s] (by simp) (by simpa using h) (by simp [List.intercalate])

theorem genSplit_append_sep (sep : Char) (a b : List Char) :
    genSplit sep (a ++ sep :: b) = genSplit sep a ++ genSplit sep b := by
  induction a with
  | nil => simp [genSplit_cons, genSplit_nil]
  | cons c cs ih =>
    rw [List.cons_append, genSplit_cons, genSplit_cons, ih]
    by_cases h : c = sep
    · simp [h]
    · simp only [h, if_false]
      cases hs : genSplit sep cs with
      | nil => exact absurd hs (genSplit_ne_nil sep cs)
      | cons u us => simp

theorem getLast_genSplit_append_sep (sep : Char) (a b : List Char) (hb : sep ∉ b) :
    (genSplit sep (a ++ sep :: b)).getLast? = some b := by
  rw [genSplit_append_sep, genSplit_of_not_mem sep b hb]
  simp

theorem head_genSplit_append_sep (sep : Char) (a b : List Char) (ha : sep ∉ a) :
    (genSplit sep (a ++ sep :: b)).head? = some a := by
  rw [genSplit_append_sep, genSplit_of_not_mem sep a ha]
  simp

/-! ## Lemmas on the string helpers -/

theorem Split_eq_splitSpec (s : String) (sep : Char) : Split s sep = splitSpec s sep := by
  simp [Split, splitSpec, genSplit_eq_splitOn]

theorem Split_length (s : String) (sep : Char) : (Split s sep).length = Count s sep + 1 := by
  simp [Split, Count, genSplit_length]

theorem index_of_getElem? {α : Type} (xs : List α) (i : Nat) (x : α) (h : xs[i]? = some x) :
    index xs i = .ok x := by
  simp [index, h]

theorem index_count_Split (s : String) (sep : Char) :
    ∃ segment, index (Split s sep) (Count s sep) = .ok segment ∧
      (Split s sep).getLast? = some segment := by
  have hlen := Split_length s sep
  have hlt : Count s sep < (Split s sep).length := by omega
  refine ⟨(Split s sep)[Count s sep], index_of_getElem? _ _ _ (List.getElem?_eq_getElem hlt), ?_⟩
  rw [List.getLast?_eq_getElem?, hlen, Nat.add_sub_cancel, List.getElem?_eq_getElem hlt]

theorem index_zero_Split (s : String) (sep : Char) :
    ∃ first, index (Split s sep) 0 = .ok first ∧ (Split s sep).head? = some first := by
  have hlen := Split_length s sep
  cases hs : Split s sep with
  | nil => simp [hs] at hlen
  | cons x xs => exact ⟨x, by simp [index], rfl⟩

theorem parseWorkflowFilenameFromPath_total (path : String) :
    ∃ c, parseWorkflowFilenameFromPath path = .ok c ∧ shortIdSpec path = some c := by
  obtain ⟨segment, h1, h2⟩ := index_count_Split path '/'
  obtain ⟨first, h3, h4⟩ := index_zero_Split segment '.'
  refine ⟨first, ?_, ?_⟩
  · simp only [parseWorkflowFilenameFromPath, h1]
    exact h3
  · simp [shortIdSpec, ← Split_eq_splitSpec, h2, h4]

theorem parseWorkflowFilenameFromPath_dir (d c ext : String) (hc : '/' ∉ c.data)
    (hdot : '.' ∉ c.data) (hext : '/' ∉ ext.data) :
    parseWorkflowFilenameFromPath (d ++ "/" ++ c ++ "." ++ ext) = .ok c := by
  obtain ⟨r, hr, hspec⟩ := parseWorkflowFilenameFromPath_total (d ++ "/" ++ c ++ "." ++ ext)
  rw [hr]
  have hlast : (splitSpec (d ++ "/" ++ c ++ "." ++ ext) '/').getLast? = some (c ++ "." ++ ext) := by
    have hfree : '/' ∉ c.data ++ '.' :: ext.data := by
      simp only [List.mem_append, List.mem_cons, not_or]
      exact ⟨hc, by decide, hext⟩
    have h := getLast_genSplit_append_sep '/' d.data (c.data ++ '.' :: ext.data) hfree
    rw [← Split_eq_splitSpec, Split]
    have hd : (d ++ "/" ++ c ++ "." ++ ext).data = d.data ++ '/' :: (c.data ++ '.' :: ext.data) := by
      simp [String.data_append]
    rw [hd, List.getLast?_map, h]
    simp [String.ext_iff, String.data_append]
  have hhead : (splitSpec (c ++ "." ++ ext) '.').head? = some c := by
    have h := head_genSplit_append_sep '.' c.data ext.data hdot
    rw [← Split_eq_splitSpec, Split]
    have hd : (c ++ "." ++ ext).data = c.data ++ '.' :: ext.data := by
      simp [String.data_append]
    rw [hd, List.head?_map, h]
    rfl
  rw [shortIdSpec, hlast, Option.some_bind, hhead, Option.some.injEq] at hspec
  rw [hspec]

theorem tokenizeSlackCommand_eq (text : String) :
    ∃ verb args, tokenizeSlackCommand text = .ok (verb, args) ∧ Split text ' ' = verb :: args := by
  have hlen := Split_length text ' '
  cases hs : Split text ' ' with
  | nil => simp [hs] at hlen
  | cons x xs =>
    refine ⟨x, xs, ?_, rfl⟩
    simp only [tokenizeSlackCommand, hs, index, sliceFrom]
    simp
    rfl

theorem intercalate_cons_eq (sep a : List Char) (l : List (List Char)) :
    sep.intercalate (a :: l) = a ++ (l.map fun t => sep ++ t).flatten := by
  induction l generalizing a with
  | nil => simp [List.intercalate]
  | cons b l ih =>
    have h := ih b
    simp only [List.intercalate] at h ⊢
    simp [List.intersperse, h]

theorem intercalate_go_data (acc sep : String) (l : List String) :
    (String.intercalate.go acc sep l).data =
      acc.data ++ (l.map fun t => sep.data ++ t.data).flatten := by
  induction l generalizing acc with
  | nil => simp [String.intercalate.go]
  | cons a l ih => simp [String.intercalate.go, ih, String.data_append]

theorem intercalate_data (sep : String) (l : List String) (hl : l ≠ []) :
    (sep.intercalate l).data = sep.data.intercalate (l.map String.data) := by
  cases l with
  | nil => exact absurd rfl hl
  | cons a l =>
    rw [String.intercalate, intercalate_go_data, List.map_cons, intercalate_cons_eq]
    simp [List.map_map, Function.comp_def]

/-! ## The string helpers: claims C6, C7 and C9 -/

/-- C6: `parseWorkflowFilenameFromPath` never indexes out of range, and on every path
its result is the reference derivation (split on `/`, last segment, split on `.`,
first segment); hence a path `a/b/c.ext`, with `c` free of `/` and `.` and `ext`
free of `/`, yields exactly `c`, as the two documented examples do. -/
theorem parseWorkflowFilenameFromPath_spec :
    (∀ path : String, ∃ c, parseWorkflowFilenameFromPath path = .ok c ∧
        shortIdSpec path = some c) ∧
    (∀ a b c ext : String, '/' ∉ c.data → '.' ∉ c.data → '/' ∉ ext.data →
        parseWorkflowFilenameFromPath (a ++ "/" ++ b ++ "/" ++ c ++ "." ++ ext) = .ok c) ∧
    parseWorkflowFilenameFromPath "" = .ok "" ∧
    parseWorkflowFilenameFromPath ".github/workflows/trigger.yml" = .ok "trigger" ∧
    parseWorkflowFilenameFromPath "workflows/deploy-prod.yaml" = .ok "deploy-prod" :=
  ⟨parseWorkflowFilenameFromPath_total,
    fun a b c ext hc hdot hext => parseWorkflowFilenameFromPath_dir (a ++ "/" ++ b) c ext hc hdot hext,
    by decide, by decide, by decide⟩

/-- Instance of C6 at the path `.github/workflows/trigger.yml`. -/
theorem parseWorkflowFilenameFromPath_spec_witness :
    parseWorkflowFilenameFromPath
      (".github" ++ "/" ++ "workflows" ++ "/" ++ "trigger" ++ "." ++ "yml") = .ok "trigger" :=
  parseWorkflowFilenameFromPath_spec.2.1 ".github" "workflows" "trigger" "yml"
    (by decide) (by decide) (by decide)

/-- C7, as stated, fails: on the text `trigger<TAB>build` the whitespace-delimited
tokens are `trigger` and `build`, while the code returns the whole text as the verb
and no arguments; on `trigger  build` (two spaces) the code returns an empty
first argument. -/
theorem tokenizeSlackCommand_whitespace_counterexample :
    (whitespaceTokens "trigger\tbuild" = ["trigger", "build"] ∧
      tokenizeSlackCommand "trigger\tbuild" = .ok ("trigger\tbuild", []) ∧
      tokenizeSlackCommand "trigger\tbuild" ≠
        .ok ((whitespaceTokens "trigger\tbuild").headD "", (whitespaceTokens "trigger\tbuild").tail)) ∧
    (whitespaceTokens "trigger  build" = ["trigger", "build"] ∧
      tokenizeSlackCommand "trigger  build" = .ok ("trigger", ["", "build"]) ∧
      tokenizeSlackCommand "trigger  build" ≠
        .ok ((whitespaceTokens "trigger  build").headD "", (whitespaceTokens "trigger  build").tail)) := by
  decide

/-- C7, amended: for every text, `tokenizeSlackCommand` returns as verb the first
piece and as arguments the remaining pieces of the text cut at every single
space (empty pieces kept, no other whitespace treated as a delimiter); on the
empty text the verb is empty and there are no arguments. -/
theorem tokenizeSlackCommand_single_space_tokens :
    (∀ text : String, ∃ verb args, tokenizeSlackCommand text = .ok (verb, args) ∧
        splitSpec text ' ' = verb :: args) ∧
    tokenizeSlackCommand "" = .ok ("", []) := by
  refine ⟨fun text => ?_, by decide⟩
  obtain ⟨verb, args, h1, h2⟩ := tokenizeSlackCommand_eq text
  exact ⟨verb, args, h1, by rw [← Split_eq_splitSpec, h2]⟩

/-- C9: `tokenizeSlackCommand` never fails; no returned token contains a space;
joining the verb and the arguments with single spaces gives back the input text;
and the returned tokens are the only space-free tokens with that property. -/
theorem tokenizeSlackCommand_roundtrip (text : String) :
    ∃ verb args, tokenizeSlackCommand text = .ok (verb, args) ∧
      (∀ t ∈ verb :: args, ' ' ∉ t.data) ∧
      " ".intercalate (verb :: args) = text ∧
      (∀ ts : List String, ts ≠ [] → (∀ t ∈ ts, ' ' ∉ t.data) → " ".intercalate ts = text →
        ts = verb :: args) := by
  obtain ⟨verb, args, h1, h2⟩ := tokenizeSlackCommand_eq text
  refine ⟨verb, args, h1, ?_, ?_, ?_⟩
  · intro t ht
    rw [← h2, Split, List.mem_map] at ht
    obtain ⟨l, hl, rfl⟩ := ht
    exact not_mem_of_mem_genSplit ' ' text.data l hl
  · apply String.ext
    rw [intercalate_data _ _ (by simp), ← h2, Split, List.map_map]
    have hid : (String.data ∘ String.mk) = id := rfl
    rw [hid, List.map_id]
    exact intercalate_genSplit ' ' text.data
  · intro ts hne hfree hjoin
    have hdata : [' '].intercalate (ts.map String.data) = text.data := by
      rw [← hjoin, intercalate_data _ _ hne]
    have hu := genSplit_unique ' ' text.data (ts.map String.data) (by simpa using hne)
      (by simpa using hfree) hdata
    rw [← h2, Split, hu, List.map_map]
    have hid : (String.mk ∘ String.data) = id := rfl
    rw [hid, List.map_id]

/-! ## Lemmas on the existence scan and the rendering loop -/

theorem workflowExistsLoop_false (X : String) (ws : List (Option Workflow))
    (hno : ∀ w ∈ ws, parseWorkflowFilenameFromPath (GetPath w) ≠ .ok X) :
    workflowExistsLoop X ws = .ok false := by
  induction ws with
  | nil => rfl
  | cons w rest ih =>
    obtain ⟨c, hc, _⟩ := parseWorkflowFilenameFromPath_total (GetPath w)
    have hne : X ≠ c := fun e => hno w (by simp) (by rw [hc, e])
    simp only [workflowExistsLoop, hc, if_neg hne]
    exact ih fun v hv => hno v (by simp [hv])

theorem workflowExistsLoop_true (X : String) (ws : List (Option Workflow))
    (hex : ∃ w ∈ ws, parseWorkflowFilenameFromPath (GetPath w) = .ok X) :
    workflowExistsLoop X ws = .ok true := by
  induction ws with
  | nil => simp at hex
  | cons w rest ih =>
    obtain ⟨c, hc, _⟩ := parseWorkflowFilenameFromPath_total (GetPath w)
    by_cases hXc : X = c
    · simp [workflowExistsLoop, hc, hXc]
    · simp only [workflowExistsLoop, hc, if_neg hXc]
      apply ih
      obtain ⟨v, hv, hpv⟩ := hex
      rcases List.mem_cons.mp hv with rfl | hv
      · rw [hc] at hpv
        exact absurd (Except.ok.inj hpv).symm hXc
      · exact ⟨v, hv, hpv⟩

theorem workflowExistsLoop_total (X : String) (ws : List (Option Workflow)) :
    (workflowExistsLoop X ws = .ok true ∧
        ∃ w ∈ ws, parseWorkflowFilenameFromPath (GetPath w) = .ok X) ∨
      (workflowExistsLoop X ws = .ok false ∧
        ∀ w ∈ ws, parseWorkflowFilenameFromPath (GetPath w) ≠ .ok X) := by
  by_cases hex : ∃ w ∈ ws, parseWorkflowFilenameFromPath (GetPath w) = .ok X
  · exact .inl ⟨workflowExistsLoop_true X ws hex, hex⟩
  · have hno : ∀ w ∈ ws, parseWorkflowFilenameFromPath (GetPath w) ≠ .ok X :=
      fun w hw h => hex ⟨w, hw, h⟩
    exact .inr ⟨workflowExistsLoop_false X ws hno, hno⟩

theorem join_cons (a : String) (l : List String) : String.join (a :: l) = a ++ String.join l := by
  apply String.ext
  simp [String.join_eq, String.data_append]

theorem listLoop_eq (shortId : Option Workflow → String)
    (hid : ∀ w, parseWorkflowFilenameFromPath (GetPath w) = .ok (shortId w))
    (list : String) (ws : List (Option Workflow)) :
    listLoop list ws =
      .ok (list ++ String.join (ws.map fun w => GetName w ++ "(" ++ shortId w ++ "), ")) := by
  induction ws generalizing list with
  | nil =>
    simp only [listLoop, List.map_nil]
    congr 1
    apply String.ext
    simp [String.join_eq, String.data_append]
  | cons w rest ih =>
    simp only [listLoop, hid w, ih, List.map_cons, join_cons]
    congr 1
    apply String.ext
    simp [String.data_append]

theorem exists_shortId :
    ∃ shortId : Option Workflow → String,
      ∀ w, parseWorkflowFilenameFromPath (GetPath w) = .ok (shortId w) := by
  have h : ∀ w : Option Workflow, ∃ c, parseWorkflowFilenameFromPath (GetPath w) = .ok c :=
    fun w => (parseWorkflowFilenameFromPath_total (GetPath w)).imp fun _ hc => hc.1
  exact ⟨fun w => (h w).choose, fun w => (h w).choose_spec⟩

theorem triggerWorkflow_eq (p : Provider) (token repoOwner repoName : String)
    (command : SlackCommand) (X : String) (ws : Workflows)
    (hclient : p.systemCertPool = none)
    (hX : command.TokenizedText[0]? = some X)
    (hlist : p.ListWorkflows repoOwner repoName = (some ws, none)) :
    triggerWorkflow p token repoOwner repoName command =
      match workflowExistsLoop X ws.Workflows with
      | .error e => ⟨[Call.listWorkflows repoOwner repoName], .error e⟩
      | .ok false => ⟨[Call.listWorkflows repoOwner repoName], .ok (some "workflow not found")⟩
      | .ok true =>
        ⟨[Call.listWorkflows repoOwner repoName,
            Call.dispatch repoOwner repoName (X ++ ".yml") "main"],
          .ok (p.CreateWorkflowDispatchEventByFileName repoOwner repoName (X ++ ".yml") "main")⟩ := by
  simp only [triggerWorkflow, createGitHubClient, hclient, index, hX, hlist]
  cases workflowExistsLoop X ws.Workflows with
  | error e => rfl
  | ok b => cases b <;> rfl

/-! ## Workflow trigger: claims C1, C2 and C10 -/

/-- C1: when the client is created, the requested id `X` is the first argument token
and the listing is fetched, a listing in which no path derives to `X` makes
`triggerWorkflow` return the error "workflow not found" with no dispatch call;
and a dispatch call is made only if some workflow of the listing derives to `X`. -/
theorem triggerWorkflow_not_found (p : Provider) (token repoOwner repoName : String)
    (command : SlackCommand) (X : String) (ws : Workflows)
    (hclient : p.systemCertPool = none)
    (hX : command.TokenizedText[0]? = some X)
    (hlist : p.ListWorkflows repoOwner repoName = (some ws, none)) :
    ((∀ w ∈ ws.Workflows, parseWorkflowFilenameFromPath (GetPath w) ≠ .ok X) →
      (triggerWorkflow p token repoOwner repoName command).result =
          .ok (some "workflow not found") ∧
        dispatchCount (triggerWorkflow p token repoOwner repoName command).calls = 0) ∧
    (dispatchCount (triggerWorkflow p token repoOwner repoName command).calls ≠ 0 →
      ∃ w ∈ ws.Workflows, parseWorkflowFilenameFromPath (GetPath w) = .ok X) := by
  rw [triggerWorkflow_eq p token repoOwner repoName command X ws hclient hX hlist]
  rcases workflowExistsLoop_total X ws.Workflows with ⟨ht, hex⟩ | ⟨hf, hno⟩
  · rw [ht]
    refine ⟨fun hno => ?_, fun _ => hex⟩
    obtain ⟨w, hw, hpw⟩ := hex
    exact absurd hpw (hno w hw)
  · rw [hf]
    exact ⟨fun _ => ⟨rfl, rfl⟩, fun h => absurd rfl h⟩

/-- Instance of C1: the listing holds only `build`, the requested id is `deploy`. -/
theorem triggerWorkflow_not_found_witness :
    (triggerWorkflow (okProvider [mkWorkflow "Build" ".github/workflows/build.yml"])
        "token" "owner" "repo" ⟨"trigger", "trigger deploy", ["deploy"]⟩).result =
      .ok (some "workflow not found") ∧
    dispatchCount (triggerWorkflow (okProvider [mkWorkflow "Build" ".github/workflows/build.yml"])
        "token" "owner" "repo" ⟨"trigger", "trigger deploy", ["deploy"]⟩).calls = 0 :=
  (triggerWorkflow_not_found (okProvider [mkWorkflow "Build" ".github/workflows/build.yml"])
    "token" "owner" "repo" ⟨"trigger", "trigger deploy", ["deploy"]⟩ "deploy"
    ⟨[mkWorkflow "Build" ".github/workflows/build.yml"]⟩ rfl rfl rfl).1 (by decide)

/-- C2: when the client is created, the requested id `X` is the first argument token
and the fetched listing holds at least one workflow deriving to `X`,
`triggerWorkflow` makes exactly one dispatch call, for the file `X.yml` on the ref
`main`, after the listing call, and returns what that dispatch call returns (nil
on success, its error on failure). -/
theorem triggerWorkflow_dispatches_once (p : Provider) (token repoOwner repoName : String)
    (command : SlackCommand) (X : String) (ws : Workflows)
    (hclient : p.systemCertPool = none)
    (hX : command.TokenizedText[0]? = some X)
    (hlist : p.ListWorkflows repoOwner repoName = (some ws, none))
    (hex : ∃ w ∈ ws.Workflows, parseWorkflowFilenameFromPath (GetPath w) = .ok X) :
    (triggerWorkflow p token repoOwner repoName command).calls =
        [Call.listWorkflows repoOwner repoName,
          Call.dispatch repoOwner repoName (X ++ ".yml") "main"] ∧
      dispatchCount (triggerWorkflow p token repoOwner repoName command).calls = 1 ∧
      (triggerWorkflow p token repoOwner repoName command).result =
        .ok (p.CreateWorkflowDispatchEventByFileName repoOwner repoName (X ++ ".yml") "main") := by
  rw [triggerWorkflow_eq p token repoOwner repoName command X ws hclient hX hlist,
    workflowExistsLoop_true X ws.Workflows hex]
  exact ⟨rfl, rfl, rfl⟩

/-- Instance of C2: two entries of the listing derive to `build`; one dispatch call is made. -/
theorem triggerWorkflow_dispatches_once_witness :
    (triggerWorkflow
        (okProvider [mkWorkflow "Build" ".github/workflows/build.yml",
          mkWorkflow "Build again" "other/build.yaml"])
        "token" "owner" "repo" ⟨"trigger", "trigger build", ["build"]⟩).calls =
      [Call.listWorkflows "owner" "repo", Call.dispatch "owner" "repo" ("build" ++ ".yml") "main"] ∧
    dispatchCount (triggerWorkflow
        (okProvider [mkWorkflow "Build" ".github/workflows/build.yml",
          mkWorkflow "Build again" "other/build.yaml"])
        "token" "owner" "repo" ⟨"trigger", "trigger build", ["build"]⟩).calls = 1 ∧
    (triggerWorkflow
        (okProvider [mkWorkflow "Build" ".github/workflows/build.yml",
          mkWorkflow "Build again" "other/build.yaml"])
        "token" "owner" "repo" ⟨"trigger", "trigger build", ["build"]⟩).result = .ok none :=
  triggerWorkflow_dispatches_once
    (okProvider [mkWorkflow "Build" ".github/workflows/build.yml",
      mkWorkflow "Build again" "other/build.yaml"])
    "token" "owner" "repo" ⟨"trigger", "trigger build", ["build"]⟩ "build"
    ⟨[mkWorkflow "Build" ".github/workflows/build.yml", mkWorkflow "Build again" "other/build.yaml"]⟩
    rfl rfl rfl ⟨mkWorkflow "Build" ".github/workflows/build.yml", by decide, by decide⟩

/-- C10, as stated, fails: with the single workflow `.github/workflows/deploy-prod.yaml`
listed and the id `deploy-prod` requested, the file `deploy-prod.yml` is dispatched,
while the last segment of the only listed path is `deploy-prod.yaml`. -/
theorem triggerWorkflow_dispatch_file_counterexample :
    (triggerWorkflow (okProvider [mkWorkflow "Deploy" ".github/workflows/deploy-prod.yaml"])
        "token" "owner" "repo" ⟨"trigger", "trigger deploy-prod", ["deploy-prod"]⟩).calls =
      [Call.listWorkflows "owner" "repo", Call.dispatch "owner" "repo" "deploy-prod.yml" "main"] ∧
    [mkWorkflow "Deploy" ".github/workflows/deploy-prod.yaml"].map
        (fun w => (splitSpec (GetPath w) '/').getLast?) = [some "deploy-prod.yaml"] ∧
    "deploy-prod.yml" ≠ "deploy-prod.yaml" := by
  decide

/-- C10, amended: whenever `triggerWorkflow` makes a dispatch call, the requested id `X`
is the first argument token, the listing was fetched, the dispatched file is
`X.yml` on the ref `main`, and `X` is the first `.`-separated piece of the last
`/`-separated segment of the path of some workflow in that listing. -/
theorem triggerWorkflow_dispatch_names_found_shortId (p : Provider)
    (token repoOwner repoName : String) (command : SlackCommand) (o r file ref : String)
    (hcall : Call.dispatch o r file ref ∈ (triggerWorkflow p token repoOwner repoName command).calls) :
    ∃ X ws w, command.TokenizedText[0]? = some X ∧
      p.ListWorkflows repoOwner repoName = (some ws, none) ∧
      w ∈ ws.Workflows ∧ shortIdSpec (GetPath w) = some X ∧
      file = X ++ ".yml" ∧ ref = "main" := by
  cases hclient : p.systemCertPool with
  | some err => simp [triggerWorkflow, createGitHubClient, hclient] at hcall
  | none =>
    cases hX : command.TokenizedText[0]? with
    | none => simp [triggerWorkflow, createGitHubClient, hclient, index, hX] at hcall
    | some X =>
      rcases hlist : p.ListWorkflows repoOwner repoName with ⟨wsOpt, errOpt⟩
      cases errOpt with
      | some err2 =>
        simp [triggerWorkflow, createGitHubClient, hclient, index, hX, hlist] at hcall
      | none =>
        cases wsOpt with
        | none => simp [triggerWorkflow, createGitHubClient, hclient, index, hX, hlist] at hcall
        | some ws =>
          rw [triggerWorkflow_eq p token repoOwner repoName command X ws hclient hX hlist] at hcall
          rcases workflowExistsLoop_total X ws.Workflows with ⟨ht, hex⟩ | ⟨hf, _⟩
          · rw [ht] at hcall
            simp only [List.mem_cons, List.mem_singleton, Call.dispatch.injEq, List.not_mem_nil,
              or_false, false_or, reduceCtorEq] at hcall
            obtain ⟨w, hw, hpw⟩ := hex
            obtain ⟨c, hc, hspec⟩ := parseWorkflowFilenameFromPath_total (GetPath w)
            rw [hc] at hpw
            rw [Except.ok.inj hpw] at hspec
            exact ⟨X, ws, w, rfl, rfl, hw, hspec, hcall.2.2.1, hcall.2.2.2⟩
          · rw [hf] at hcall
            simp at hcall

/-- Instance of the amended C10 at a listing that holds `deploy-prod.yaml`. -/
theorem triggerWorkflow_dispatch_names_found_shortId_witness :
    ∃ X ws w, (["deploy-prod"] : List String)[0]? = some X ∧
      (okProvider [mkWorkflow "Deploy" ".github/workflows/deploy-prod.yaml"]).ListWorkflows
        "owner" "repo" = (some ws, none) ∧
      w ∈ ws.Workflows ∧ shortIdSpec (GetPath w) = some X ∧
      "deploy-prod.yml" = X ++ ".yml" ∧ "main" = "main" :=
  triggerWorkflow_dispatch_names_found_shortId
    (okProvider [mkWorkflow "Deploy" ".github/workflows/deploy-prod.yaml"])
    "token" "owner" "repo" ⟨"trigger", "trigger deploy-prod", ["deploy-prod"]⟩
    "owner" "repo" "deploy-prod.yml" "main" (by decide)

theorem listWorkflows_eq (p : Provider) (token owner repo : String) (ws : Workflows)
    (shortId : Option Workflow → String)
    (hid : ∀ w, parseWorkflowFilenameFromPath (GetPath w) = .ok (shortId w))
    (hclient : p.systemCertPool = none)
    (hlist : p.ListWorkflows owner repo = (some ws, none)) :
    listWorkflows p token owner repo =
      ⟨[Call.listWorkflows owner repo],
        .ok (String.join (ws.Workflows.map fun w => GetName w ++ "(" ++ shortId w ++ "), "),
          none)⟩ := by
  have hempty : ∀ t : String, "" ++ t = t := fun t => String.ext (by simp [String.data_append])
  simp only [listWorkflows, createGitHubClient, hclient, hlist, listLoop_eq shortId hid, hempty]

theorem triggerHandler_list (p : Provider) (cfg : Config) (ws : Workflows)
    (shortId : Option Workflow → String)
    (hid : ∀ w, parseWorkflowFilenameFromPath (GetPath w) = .ok (shortId w))
    (hclient : p.systemCertPool = none)
    (hlist : p.ListWorkflows cfg.repoOwner cfg.repoName = (some ws, none)) :
    (triggerHandler p cfg (.ok "list")).result =
      .ok (.json 200
        (String.join (ws.Workflows.map fun w => GetName w ++ "(" ++ shortId w ++ "), "))
        "ephemeral") := by
  have htok : tokenizeSlackCommand "list" = .ok ("list", []) := by decide
  have h1 : ¬ ("list" = "help") := by decide
  have h2 : ¬ ("list" = "trigger") := by decide
  simp only [triggerHandler, htok, if_neg h1, if_neg h2, if_true,
    listWorkflows_eq p cfg.githubToken cfg.repoOwner cfg.repoName ws shortId hid hclient hlist]

/-! ## Workflow listing and the dispatcher: claims C4, C5, C3 and C8 -/

/-- C4: when the client is created and the listing `[w1, ..., wn]` is fetched,
`listWorkflows` returns, and the `list` verb answers with, the concatenation in
listing order of `name(wi) ++ "(" ++ shortId(wi) ++ "), "`, where `shortId` is the
result of `parseWorkflowFilenameFromPath` on the path; two workflows named `Build`
and `Deploy` with the ids `build` and `deploy` give `Build(build), Deploy(deploy), `
and the empty listing gives the empty text. -/
theorem listWorkflows_renders_listing (p : Provider) (cfg : Config) (ws : Workflows)
    (hclient : p.systemCertPool = none)
    (hlist : p.ListWorkflows cfg.repoOwner cfg.repoName = (some ws, none)) :
    ∃ shortId : Option Workflow → String,
      (∀ w, parseWorkflowFilenameFromPath (GetPath w) = .ok (shortId w)) ∧
      (listWorkflows p cfg.githubToken cfg.repoOwner cfg.repoName).result =
        .ok (String.join (ws.Workflows.map fun w => GetName w ++ "(" ++ shortId w ++ "), "),
          none) ∧
      (triggerHandler p cfg (.ok "list")).result =
        .ok (.json 200
          (String.join (ws.Workflows.map fun w => GetName w ++ "(" ++ shortId w ++ "), "))
          "ephemeral") ∧
      (∀ w1 w2, ws.Workflows = [w1, w2] → GetName w1 = "Build" → shortId w1 = "build" →
        GetName w2 = "Deploy" → shortId w2 = "deploy" →
        (triggerHandler p cfg (.ok "list")).result =
          .ok (.json 200 "Build(build), Deploy(deploy), " "ephemeral")) ∧
      (ws.Workflows = [] →
        (triggerHandler p cfg (.ok "list")).result = .ok (.json 200 "" "ephemeral")) := by
  obtain ⟨shortId, hid⟩ := exists_shortId
  have hl := listWorkflows_eq p cfg.githubToken cfg.repoOwner cfg.repoName ws shortId hid hclient hlist
  have hh := triggerHandler_list p cfg ws shortId hid hclient hlist
  refine ⟨shortId, hid, by rw [hl], hh, ?_, ?_⟩
  · intro w1 w2 hws hn1 hs1 hn2 hs2
    rw [hh, hws]
    simp only [List.map_cons, List.map_nil, hn1, hs1, hn2, hs2]
    rfl
  · intro hws
    rw [hh, hws]
    rfl

/-- Instance of C4: the listing holds `Build` at `.github/workflows/build.yml` and
`Deploy` at `.github/workflows/deploy.yml`. -/
theorem listWorkflows_renders_listing_witness :
    (triggerHandler
        (okProvider [mkWorkflow "Build" ".github/workflows/build.yml",
          mkWorkflow "Deploy" ".github/workflows/deploy.yml"])
        exampleConfig (.ok "list")).result =
      .ok (.json 200 "Build(build), Deploy(deploy), " "ephemeral") := by
  obtain ⟨shortId, hid, _, _, hex, _⟩ := listWorkflows_renders_listing
    (okProvider [mkWorkflow "Build" ".github/workflows/build.yml",
      mkWorkflow "Deploy" ".github/workflows/deploy.yml"])
    exampleConfig
    ⟨[mkWorkflow "Build" ".github/workflows/build.yml",
      mkWorkflow "Deploy" ".github/workflows/deploy.yml"]⟩ rfl rfl
  have h1 := hid (mkWorkflow "Build" ".github/workflows/build.yml")
  have h2 := hid (mkWorkflow "Deploy" ".github/workflows/deploy.yml")
  have e1 : parseWorkflowFilenameFromPath
      (GetPath (mkWorkflow "Build" ".github/workflows/build.yml")) = .ok "build" := by decide
  have e2 : parseWorkflowFilenameFromPath
      (GetPath (mkWorkflow "Deploy" ".github/workflows/deploy.yml")) = .ok "deploy" := by decide
  rw [e1] at h1
  rw [e2] at h2
  exact hex _ _ rfl rfl (Except.ok.inj h1).symm rfl (Except.ok.inj h2).symm

/-- C5 fails on the code: when the listing call returns the error `401 Bad credentials`
(and, as go-github does on an error, a nil `*Workflows`), `listWorkflows` does not
return that error but runs into a nil pointer dereference after one listing
call, and the `list` verb produces no response text. -/
theorem listWorkflows_failed_listing_panics :
    (listWorkflows (failingListProvider "401 Bad credentials") "token" "owner" "repo").result =
      .error .nilPointerDereference ∧
    (listWorkflows (failingListProvider "401 Bad credentials") "token" "owner" "repo").result ≠
      .ok ("", some "401 Bad credentials") ∧
    (listWorkflows (failingListProvider "401 Bad credentials") "token" "owner" "repo").calls =
      [Call.listWorkflows "owner" "repo"] ∧
    (triggerHandler (failingListProvider "401 Bad credentials") exampleConfig (.ok "list")).result ≠
      .ok (.json 200 "401 Bad credentials" "ephemeral") := by
  decide

/-- C3 fails on the code: the text `trigger` without an argument makes the dispatcher
index the empty argument list and panic before any provider call, and the text
`list` with a failed listing makes it panic on the nil listing; neither resolves
to a response. -/
theorem triggerHandler_panics :
    (triggerHandler (okProvider []) exampleConfig (.ok "trigger")).result =
      .error (.indexOutOfRange 0 0) ∧
    (triggerHandler (okProvider []) exampleConfig (.ok "trigger")).calls = [] ∧
    (triggerHandler (failingListProvider "401 Bad credentials") exampleConfig (.ok "list")).result =
      .error .nilPointerDereference := by
  decide

/-- C8: for every text whose parsed verb is none of `help`, `trigger` and `list`, the
dispatcher answers `Invalid Command...` with status 200 and makes no provider
call; so it does for the empty text and for `bogus` followed by arguments. -/
theorem triggerHandler_invalid_command (p : Provider) (cfg : Config) (text verb : String)
    (args : List String) (htok : tokenizeSlackCommand text = .ok (verb, args))
    (hhelp : verb ≠ "help") (htrigger : verb ≠ "trigger") (hlist : verb ≠ "list") :
    (triggerHandler p cfg (.ok text)).result = .ok (.json 200 "Invalid Command..." "ephemeral") ∧
      (triggerHandler p cfg (.ok text)).calls = [] := by
  simp only [triggerHandler, htok, if_neg hhelp, if_neg htrigger, if_neg hlist]
  exact ⟨trivial, trivial⟩

/-- Instances of C8: the text `bogus now please` and the empty text. -/
theorem triggerHandler_invalid_command_witness :
    ((triggerHandler (okProvider []) exampleConfig (.ok "bogus now please")).result =
        .ok (.json 200 "Invalid Command..." "ephemeral") ∧
      (triggerHandler (okProvider []) exampleConfig (.ok "bogus now please")).calls = []) ∧
    ((triggerHandler (failingListProvider "down") exampleConfig (.ok "")).result =
        .ok (.json 200 "Invalid Command..." "ephemeral") ∧
      (triggerHandler (failingListProvider "down") exampleConfig (.ok "")).calls = []) :=
  ⟨triggerHandler_invalid_command (okProvider []) exampleConfig "bogus now please" "bogus"
      ["now", "please"] (by decide) (by decide) (by decide) (by decide),
    triggerHandler_invalid_command (failingListProvider "down") exampleConfig "" "" []
      (by decide) (by decide) (by decide) (by decide)⟩

end GhaSlackBot
